import Mathlib

/-!
Verification of the questionnaire_processor repository's normalization and
scoring pipeline.

The Python source is shallowly embedded:
  * `src/tools.py`            → `sanitize_text` (regex whitespace collapse + strip)
  * `src/analyzer.py`         → `calculate_category_scores`, `compare_with_overall`,
                                `get_performance_status`, `get_recommendations`
  * `src/config_manager.py`   → `get_analysis_settings`
  * `src/data_processor.py`   → `normalize_likert_response`, `normalize_data`
                                (column renaming, schema matching, Likert
                                conversion), `filter_data`
Numeric cell values are modelled with `ℚ` (a pandas NaN or Python `None` cell
is `Option.none`), DataFrames column-major as association lists from column
name to cell list, and Python dicts as association lists in insertion order.
`String.toLower` stands in for Python `str.lower` (the repository's data is
ASCII at the points where case folding matters).
-/

namespace QP

/-- Characters matched by Python's regex `\s` (and `str.strip`) on `str`
inputs: the Unicode whitespace set, including NBSP U+00A0. -/
def pyIsSpace (c : Char) : Bool :=
  let n := c.toNat
  (9 ≤ n && n ≤ 13) || (28 ≤ n && n ≤ 31) || n == 32 || n == 133 || n == 160 ||
  n == 0x1680 || (0x2000 ≤ n && n ≤ 0x200A) || n == 0x2028 || n == 0x2029 ||
  n == 0x202F || n == 0x205F || n == 0x3000

/-- Embedding of `re.sub(r'\s+', ' ', input)`: every maximal run of whitespace
characters becomes a single ASCII space. -/
def subWS : List Char → List Char
  | [] => []
  | [c] => if pyIsSpace c then [' '] else [c]
  | c1 :: c2 :: rest =>
      if pyIsSpace c1 && pyIsSpace c2 then subWS (c2 :: rest)
      else (if pyIsSpace c1 then ' ' else c1) :: subWS (c2 :: rest)

/-- Removal of trailing whitespace (the right half of Python `str.strip`). -/
def dropTrailingWS : List Char → List Char
  | [] => []
  | c :: rest =>
      let r := dropTrailingWS rest
      if r.isEmpty && pyIsSpace c then [] else c :: r

/-- Embedding of Python `str.strip()`: drop leading and trailing whitespace. -/
def stripWS (l : List Char) : List Char :=
  dropTrailingWS (l.dropWhile pyIsSpace)

/-- Embedding of `tools.sanitize_text`:
`re.sub(r'\s+', ' ', input).strip()`. -/
def sanitize_text (s : String) : String :=
  String.mk (stripWS (subWS s.data))

/-- Normalizer-output invariant: any whitespace character occurring in the
list is the plain ASCII space. -/
def spacesSingle (l : List Char) : Prop :=
  ∀ c ∈ l, pyIsSpace c = true → c = ' '

/-- Normalizer-output invariant: no two adjacent whitespace characters. -/
def noTwoSpaces : List Char → Prop
  | a :: b :: rest => ¬(pyIsSpace a = true ∧ pyIsSpace b = true) ∧ noTwoSpaces (b :: rest)
  | _ => True

/-- Embedding of `analyzer.get_performance_status`.  The Python signature
carries default thresholds `significant_threshold=0.2`, `similar_threshold=0.1`;
callers relying on the defaults are embedded passing `2/10` and `1/10`
explicitly. -/
def get_performance_status (difference significant_threshold similar_threshold : ℚ) :
    String :=
  if difference > significant_threshold then "significantly_above"
  else if difference > similar_threshold then "above"
  else if |difference| ≤ similar_threshold then "similar"
  else if difference < -significant_threshold then "significantly_below"
  else "below"

/-- Status classification as worded in the specification (section 4.5), the
five bands evaluated top to bottom. -/
def spec_status (significant similar d : ℚ) : String :=
  if d > significant then "significantly_above"
  else if similar < d ∧ d ≤ significant then "above"
  else if -similar ≤ d ∧ d ≤ similar then "similar"
  else if -significant ≤ d ∧ d < -similar then "below"
  else "significantly_below"

/-- Column-major model of the numeric DataFrame the analyzer receives:
`nRows` is `len(df)`, `cols` maps each column name to its cells, a cell being
`none` for NaN.  Well-formedness (`NumDF.WF`) requires every column to have
`nRows` cells. -/
structure NumDF where
  nRows : Nat
  cols : List (String × List (Option ℚ))

/-- Well-formed numeric DataFrame: each column holds one cell per row. -/
def NumDF.WF (df : NumDF) : Prop :=
  ∀ cv ∈ df.cols, cv.2.length = df.nRows

/-- Arithmetic mean, the embedding of `np.mean` on a nonempty list (callers
guard emptiness, mirroring the source's guards). -/
def listMean (l : List ℚ) : ℚ :=
  l.sum / l.length

/-- Embedding of `pandas.Series.mean()`: mean of the non-NaN cells, NaN
(`none`) when every cell is NaN. -/
def colMean (cells : List (Option ℚ)) : Option ℚ :=
  let vs := cells.reduceOption
  if vs.isEmpty then none else some (listMean vs)

/-- The per-question-average loop duplicated verbatim inside
`calculate_category_scores` and `compare_with_overall`:
`if question in df.columns: col_mean = df[question].mean();
if not pd.isna(col_mean): question_averages.append(col_mean)`. -/
def questionAverages (df : NumDF) (questions : List String) : List ℚ :=
  questions.filterMap (fun q => (df.cols.lookup q).bind colMean)

/-- Embedding of `analyzer.calculate_category_scores`; the result dict is an
association list in insertion order. -/
def calculate_category_scores (df : NumDF)
    (categories : List (String × List String)) : List (String × ℚ) :=
  categories.filterMap (fun cq =>
    if cq.2 ≠ [] ∧ 0 < df.nRows then
      let qavgs := questionAverages df cq.2
      if qavgs ≠ [] then some (cq.1, listMean qavgs) else none
    else none)

/-- Defined (non-NaN) values of question `q` across the row set, used by the
spec-side category score. -/
def definedVals (df : NumDF) (q : String) : List ℚ :=
  ((df.cols.lookup q).getD []).reduceOption

/-- Modelled from the spec's wording of the category score (section 4.5): the
mean of each question's defined values, questions with zero defined values
discarded, `none` (category omitted) when nothing remains. -/
def specCategoryScore (df : NumDF) (Q : List String) : Option ℚ :=
  let ms := Q.filterMap (fun q =>
    let vs := definedVals df q
    if vs.isEmpty then none else some (listMean vs))
  if ms.isEmpty then none else some (listMean ms)

/-- One entry of the comparisons dict built by `compare_with_overall`. -/
structure Comparison where
  filtered_score : ℚ
  overall_score : ℚ
  difference : ℚ
  status : String
deriving DecidableEq, Repr

/-- Embedding of `analyzer.compare_with_overall`.  Note the source calls
`get_performance_status(difference)` with no threshold arguments, so the
Python defaults 0.2 and 0.1 are always used here. -/
def compare_with_overall (filtered_df overall_df : NumDF)
    (categories : List (String × List String)) : List (String × Comparison) :=
  categories.filterMap (fun cq =>
    if cq.2 ≠ [] then
      let filtered_avg : ℚ :=
        if 0 < filtered_df.nRows then
          let qa := questionAverages filtered_df cq.2
          if qa ≠ [] then listMean qa else 0
        else 0
      let overall_avg : ℚ :=
        let qa := questionAverages overall_df cq.2
        if qa ≠ [] then listMean qa else 0
      let difference := filtered_avg - overall_avg
      some (cq.1,
        { filtered_score := filtered_avg
          overall_score := overall_avg
          difference := difference
          status := get_performance_status difference (2/10) (1/10) })
    else none)

/-- The `analysis` section of the YAML configuration; a missing key is
`none`. -/
structure AnalysisConfig where
  significant_difference_threshold : Option ℚ
  similar_threshold : Option ℚ
  max_individual_responses : Option Nat
deriving DecidableEq, Repr

/-- The settings record returned by `config_manager.get_analysis_settings`. -/
structure AnalysisSettings where
  significant_difference_threshold : ℚ
  similar_threshold : ℚ
  max_individual_responses : Nat
deriving DecidableEq, Repr

/-- Embedding of `config_manager.get_analysis_settings`: configured values
with defaults applied for absent keys. -/
def get_analysis_settings (analysis : AnalysisConfig) : AnalysisSettings :=
  { significant_difference_threshold :=
      analysis.significant_difference_threshold.getD (2/10)
    similar_threshold := analysis.similar_threshold.getD (1/10)
    max_individual_responses := analysis.max_individual_responses.getD 10 }

/-- The `metadata` block of the statistics bundle
(`generate_detailed_statistics`). -/
structure Metadata where
  selected_team : String
  selected_location : String
  filtered_responses : Nat
  total_responses : Nat
deriving DecidableEq, Repr

/-- The statistics-bundle fields read by `get_recommendations` (the bundle
also carries category scores, question details and comments, none of which
that function touches). -/
structure Stats where
  metadata : Metadata
  comparisons : List (String × Comparison)
deriving DecidableEq, Repr

/-- Embedding of Python `min(comparisons.keys(), key=...)` over the
comparisons dict: the first entry with minimal `filtered_score`, `none` on an
empty dict (the source guards that case with `if comparisons:`). -/
def argminScore : List (String × Comparison) → Option (String × Comparison)
  | [] => none
  | x :: xs =>
    match argminScore xs with
    | none => some x
    | some y => if x.2.filtered_score ≤ y.2.filtered_score then some x else some y

/-- Model of Python's `format(x, '.2f')` used in the recommendation text:
round to two decimal places and render. -/
def format2f (q : ℚ) : String :=
  let n : Int := round (q * 100)
  let sign := if n < 0 then "-" else ""
  let m := n.natAbs
  let r := m % 100
  sign ++ toString (m / 100) ++ "." ++ (if r < 10 then "0" else "") ++ toString r

/-- The worst-category recommendation string of `get_recommendations`. -/
def categoryFocusMsg (cat : String) (score : ℚ) (status : String) : String :=
  "CATEGORY FOCUS: Address " ++ cat ++ " (score: " ++ format2f score ++ ", " ++
    status.replace "_" " " ++ ")"

/-- The combination-impact recommendation string of `get_recommendations`. -/
def combinationImpactMsg (team loc : String) (n : Nat) : String :=
  "COMBINATION IMPACT: " ++ team ++ " in " ++ loc ++
    " shows lower performance in " ++ toString n ++ " categories"

/-- Embedding of `analyzer.get_recommendations` (its `categories` parameter is
unused in the source and kept here). -/
def get_recommendations (stats : Stats) (categories : List (String × List String)) :
    List String :=
  if stats.metadata.filtered_responses = 0 then
    ["No data available for this combination - unable to provide recommendations."]
  else
    let comparisons := stats.comparisons
    let recs1 : List String :=
      match argminScore comparisons with
      | none => []
      | some wc =>
        if wc.2.status = "significantly_below" ∨ wc.2.status = "below" then
          [categoryFocusMsg wc.1 wc.2.filtered_score wc.2.status]
        else []
    let recs2 : List String :=
      if stats.metadata.selected_team ≠ "all" ∧
          stats.metadata.selected_location ≠ "all" then
        let below := comparisons.filter (fun cc =>
          cc.2.status == "significantly_below" || cc.2.status == "below")
        if below.isEmpty then []
        else [combinationImpactMsg stats.metadata.selected_team
          stats.metadata.selected_location below.length]
      else []
    let recs := recs1 ++ recs2
    if recs.isEmpty then
      ["No specific issues identified - performance appears satisfactory for this combination."]
    else recs

/-- A raw cell payload: survey tables hold text, converted columns hold
numbers. -/
inductive CellV
  | str (s : String)
  | num (q : ℚ)
deriving DecidableEq, Repr

/-- A cell: `none` models NaN / Python `None` / an absent value. -/
abbrev Cell := Option CellV

/-- Python `str(...)` of a cell payload. -/
def cellText : CellV → String
  | .str s => s
  | .num q => toString q

/-- Model of Python `str.lower` (ASCII case folding), applied character-wise
(the structural analogue of `String.toLower`). -/
def strLower (s : String) : String :=
  String.mk (s.data.map Char.toLower)

/-- Embedding of the closure `normalize_likert_response` inside
`data_processor.normalize_data`.  A mapping value of `none` models the
config's explicit `null` score ("I don't know"); the function's `none` result
covers both that and NaN, which coincide downstream. -/
def normalize_likert_response (likert_mapping : List (String × Option ℚ))
    (cell : Cell) : Option ℚ :=
  match cell with
  | none => none
  | some v =>
    let text_str := String.mk (stripWS (cellText v).data)
    let normalized_text := sanitize_text text_str
    match likert_mapping.lookup normalized_text with
    | some value => value
    | none =>
      match likert_mapping.find? (fun kv =>
          strLower normalized_text == strLower (sanitize_text kv.1)) with
      | some kv => kv.2
      | none => none

/-- Modelled from the spec's wording of the Likert Converter (section 4.3):
null is undefined; otherwise normalize the text, try exact lookup, then the
first case-insensitive match against normalized keys, else undefined. -/
def spec_likert (likert_mapping : List (String × Option ℚ)) (cell : Cell) :
    Option ℚ :=
  match cell with
  | none => none
  | some v =>
    let t := sanitize_text (cellText v)
    match likert_mapping.lookup t with
    | some value => value
    | none =>
      match likert_mapping.find? (fun kv =>
          strLower (sanitize_text kv.1) == strLower t) with
      | some kv => kv.2
      | none => none

/-- Cell-level Likert conversion as applied by
`normalized_df[question].apply(normalize_likert_response)`. -/
def convertCell (likert_mapping : List (String × Option ℚ)) (cell : Cell) : Cell :=
  (normalize_likert_response likert_mapping cell).map CellV.num

/-- One iteration of the conversion loop of `normalize_data`:
`if question in normalized_df.columns:
normalized_df[question] = normalized_df[question].apply(normalize_likert_response)`. -/
def applyConvert (likert_mapping : List (String × Option ℚ))
    (df : List (String × List Cell)) (q : String) : List (String × List Cell) :=
  if (df.map Prod.fst).contains q then
    df.map (fun cv =>
      if cv.1 == q then (cv.1, cv.2.map (convertCell likert_mapping)) else cv)
  else df

/-- Embedding of `data_processor.normalize_data`: rename every column to its
sanitized name, match each configured question's sanitized text against the
renamed columns (matched per category in order, the rest collected as
(category, original text) missing pairs), then convert every matched column
in place.  Returns `(normalized_df, matched_questions, missing_questions)`. -/
def normalize_data (df : List (String × List Cell))
    (categories : List (String × List String))
    (likert_mapping : List (String × Option ℚ)) :
    List (String × List Cell) × List (String × List String) × List (String × String) :=
  let normalized_df := df.map (fun cv => (sanitize_text cv.1, cv.2))
  let normCols := normalized_df.map Prod.fst
  let matched_questions := categories.map (fun cq =>
    (cq.1, cq.2.filterMap (fun q =>
      let nq := sanitize_text q
      if normCols.contains nq then some nq else none)))
  let missing_questions := categories.flatMap (fun cq =>
    (cq.2.filter (fun q => !(normCols.contains (sanitize_text q)))).map
      (fun q => (cq.1, q)))
  let converted := (matched_questions.flatMap Prod.snd).foldl
    (applyConvert likert_mapping) normalized_df
  (converted, matched_questions, missing_questions)

/-- A table row as `filter_data` sees it: column name to cell. -/
abbrev Row := List (String × Cell)

/-- Cell of row `r` in column `c` (pandas row indexing). -/
def rowGet (r : Row) (c : String) : Cell :=
  (r.lookup c).getD none

/-- Embedding of `data_processor.filter_data`: filter by team unless the
selector is "all", then by location unless "all". -/
def filter_data (rows : List Row) (team_column location_column : String)
    (selected_team selected_location : String) : List Row :=
  let r1 :=
    if selected_team ≠ "all" then
      rows.filter (fun r => rowGet r team_column == some (CellV.str selected_team))
    else rows
  if selected_location ≠ "all" then
    r1.filter (fun r => rowGet r location_column == some (CellV.str selected_location))
  else r1

/-! Lemmas about the text normalizer. -/

theorem mem_subWS : ∀ {l : List Char} {c : Char}, c ∈ subWS l →
    c = ' ' ∨ (c ∈ l ∧ pyIsSpace c = false) := by
  intro l
  induction l with
  | nil => intro c h; simp [subWS] at h
  | cons a rest ih =>
    intro c h
    match rest with
    | [] =>
      by_cases ha : pyIsSpace a
      · simp [subWS, ha] at h; left; exact h
      · simp [subWS, ha] at h
        right
        exact ⟨by simp [h], h ▸ (Bool.not_eq_true _ ▸ ha : pyIsSpace a = false)⟩
    | b :: rest' =>
      rw [subWS] at h
      by_cases hab : pyIsSpace a && pyIsSpace b
      · rw [if_pos hab] at h
        rcases ih h with h1 | ⟨h2, h3⟩
        · left; exact h1
        · right; exact ⟨List.mem_cons_of_mem _ h2, h3⟩
      · rw [if_neg hab] at h
        rcases List.mem_cons.1 h with h1 | h1
        · by_cases ha : pyIsSpace a
          · simp [ha] at h1; left; exact h1
          · simp [ha] at h1
            right
            refine ⟨by simp [h1], ?_⟩
            rw [h1]
            exact Bool.not_eq_true _ ▸ ha
        · rcases ih h1 with h2 | ⟨h3, h4⟩
          · left; exact h2
          · right; exact ⟨List.mem_cons_of_mem _ h3, h4⟩

theorem head_subWS (c : Char) (rest : List Char) :
    ∃ t, subWS (c :: rest) = (if pyIsSpace c then ' ' else c) :: t := by
  induction rest generalizing c with
  | nil => exact ⟨[], by cases h : pyIsSpace c <;> simp [subWS, h]⟩
  | cons b rest' ih =>
    rw [subWS]
    by_cases hab : pyIsSpace c && pyIsSpace b
    · rw [if_pos hab]
      obtain ⟨t, ht⟩ := ih b
      refine ⟨t, ?_⟩
      have hc : pyIsSpace c = true := (Bool.and_eq_true _ _ ▸ hab).1
      have hb : pyIsSpace b = true := (Bool.and_eq_true _ _ ▸ hab).2
      rw [ht]
      simp [hc, hb]
    · rw [if_neg hab]
      exact ⟨subWS (b :: rest'), rfl⟩

theorem noTwoSpaces_tail {a : Char} {l : List Char} (h : noTwoSpaces (a :: l)) :
    noTwoSpaces l := by
  match l with
  | [] => trivial
  | b :: rest => exact h.2

theorem noTwoSpaces_subWS : ∀ l : List Char, noTwoSpaces (subWS l) := by
  intro l
  induction l with
  | nil => simp [subWS, noTwoSpaces]
  | cons a rest ih =>
    match rest with
    | [] => cases h : pyIsSpace a <;> simp [subWS, h, noTwoSpaces]
    | b :: rest' =>
      rw [subWS]
      by_cases hab : pyIsSpace a && pyIsSpace b
      · rw [if_pos hab]; exact ih
      · rw [if_neg hab]
        obtain ⟨t, ht⟩ := head_subWS b rest'
        rw [ht]
        rw [ht] at ih
        refine ⟨?_, ih⟩
        rintro ⟨h1, h2⟩
        apply hab
        rw [Bool.and_eq_true]
        constructor
        · by_cases ha : pyIsSpace a
          · exact ha
          · rw [if_neg ha] at h1; exact h1
        · by_cases hb : pyIsSpace b
          · exact hb
          · rw [if_neg hb] at h2; exact h2

theorem noTwoSpaces_dropWhile {l : List Char} (h : noTwoSpaces l) :
    noTwoSpaces (l.dropWhile pyIsSpace) := by
  induction l with
  | nil => simpa using h
  | cons a rest ih =>
    rw [List.dropWhile_cons]
    by_cases ha : pyIsSpace a
    · rw [if_pos ha]; exact ih (noTwoSpaces_tail h)
    · rw [if_neg ha]; exact h

theorem dropTrailingWS_cons (c : Char) (rest : List Char) :
    dropTrailingWS (c :: rest) = [] ∨
    dropTrailingWS (c :: rest) = c :: dropTrailingWS rest := by
  rw [dropTrailingWS]
  by_cases h : ((dropTrailingWS rest).isEmpty && pyIsSpace c) = true
  · left; rw [if_pos h]
  · right; rw [if_neg h]

theorem noTwoSpaces_dropTrailingWS {l : List Char} (h : noTwoSpaces l) :
    noTwoSpaces (dropTrailingWS l) := by
  induction l with
  | nil => simpa [dropTrailingWS] using h
  | cons a rest ih =>
    rcases dropTrailingWS_cons a rest with h1 | h1
    · rw [h1]; trivial
    · rw [h1]
      have ih' := ih (noTwoSpaces_tail h)
      cases hr : dropTrailingWS rest with
      | nil => trivial
      | cons x t =>
        rw [hr] at ih'
        cases rest with
        | nil => simp [dropTrailingWS] at hr
        | cons b rest' =>
          rcases dropTrailingWS_cons b rest' with h2 | h2
          · rw [h2] at hr; exact absurd hr.symm (List.cons_ne_nil _ _)
          · rw [h2] at hr
            have hxb : x = b := ((List.cons.injEq _ _ _ _ ▸ hr.symm).1.symm).symm
            subst hxb
            exact ⟨h.1, ih'⟩

theorem spacesSingle_subWS (l : List Char) : spacesSingle (subWS l) := by
  intro c hc hsp
  rcases mem_subWS hc with h | ⟨_, h⟩
  · exact h
  · rw [h] at hsp; exact absurd hsp (by simp)

theorem mem_dropTrailingWS : ∀ {l : List Char} {c : Char},
    c ∈ dropTrailingWS l → c ∈ l := by
  intro l
  induction l with
  | nil => intro c h; simp [dropTrailingWS] at h
  | cons a rest ih =>
    intro c h
    rcases dropTrailingWS_cons a rest with h1 | h1
    · rw [h1] at h; simp at h
    · rw [h1] at h
      rcases List.mem_cons.1 h with h2 | h2
      · exact h2 ▸ List.mem_cons_self _ _
      · exact List.mem_cons_of_mem _ (ih h2)

theorem spacesSingle_stripWS {l : List Char} (h : spacesSingle l) :
    spacesSingle (stripWS l) := by
  intro c hc hsp
  exact h c ((List.dropWhile_suffix pyIsSpace).sublist.subset (mem_dropTrailingWS hc)) hsp

theorem noTwoSpaces_stripWS {l : List Char} (h : noTwoSpaces l) :
    noTwoSpaces (stripWS l) :=
  noTwoSpaces_dropTrailingWS (noTwoSpaces_dropWhile h)

theorem head_dropWhile_false : ∀ {l : List Char} {c : Char} {t : List Char},
    l.dropWhile pyIsSpace = c :: t → pyIsSpace c = false := by
  intro l
  induction l with
  | nil => intro c t h; simp at h
  | cons a rest ih =>
    intro c t h
    rw [List.dropWhile_cons] at h
    by_cases ha : pyIsSpace a
    · rw [if_pos ha] at h; exact ih h
    · rw [if_neg ha] at h
      have : a = c := (List.cons.injEq _ _ _ _ ▸ h).1
      rw [← this]
      exact Bool.not_eq_true _ ▸ ha

theorem getLast?_dropTrailingWS : ∀ {l : List Char} {c : Char},
    (dropTrailingWS l).getLast? = some c → pyIsSpace c = false := by
  intro l
  induction l with
  | nil => intro c h; simp [dropTrailingWS] at h
  | cons a rest ih =>
    intro c h
    rw [dropTrailingWS] at h
    by_cases hcond : ((dropTrailingWS rest).isEmpty && pyIsSpace a) = true
    · rw [if_pos hcond] at h; simp at h
    · rw [if_neg hcond] at h
      cases hr : dropTrailingWS rest with
      | nil =>
        rw [hr] at h
        simp only [List.getLast?_singleton, Option.some.injEq] at h
        rw [Bool.and_eq_true] at hcond
        push_neg at hcond
        have : pyIsSpace a ≠ true := hcond (by rw [hr]; rfl)
        rw [← h]
        exact Bool.not_eq_true _ ▸ this
      | cons x t =>
        rw [hr] at h
        rw [List.getLast?_cons_cons] at h
        exact ih (hr ▸ h)

theorem subWS_fixpoint : ∀ {l : List Char}, spacesSingle l → noTwoSpaces l →
    subWS l = l := by
  intro l
  induction l with
  | nil => intro _ _; rfl
  | cons a rest ih =>
    intro hs hn
    match rest with
    | [] =>
      by_cases ha : pyIsSpace a = true
      · have : a = ' ' := hs a (List.mem_cons_self _ _) ha
        rw [subWS, if_pos ha, this]
      · rw [subWS, if_neg ha]
    | b :: rest' =>
      rw [subWS]
      have hab : (pyIsSpace a && pyIsSpace b) = false := by
        rcases hn with ⟨h1, _⟩
        cases ha : pyIsSpace a <;> cases hb : pyIsSpace b <;> simp_all
      rw [hab]
      simp only [Bool.false_eq_true, if_false]
      have htail : subWS (b :: rest') = b :: rest' :=
        ih (fun c hc => hs c (List.mem_cons_of_mem _ hc)) (noTwoSpaces_tail hn)
      rw [htail]
      by_cases ha : pyIsSpace a = true
      · rw [if_pos ha, hs a (List.mem_cons_self _ _) ha]
      · rw [if_neg ha]

theorem dropWhile_fixpoint {l : List Char}
    (h : ∀ c t, l = c :: t → pyIsSpace c = false) :
    l.dropWhile pyIsSpace = l := by
  cases l with
  | nil => rfl
  | cons a rest => rw [List.dropWhile_cons, h a rest rfl]; simp

theorem dropTrailingWS_fixpoint : ∀ {l : List Char},
    (∀ c, l.getLast? = some c → pyIsSpace c = false) →
    dropTrailingWS l = l := by
  intro l
  induction l with
  | nil => intro _; rfl
  | cons a rest ih =>
    intro h
    cases rest with
    | nil =>
      have : pyIsSpace a = false := h a rfl
      rw [dropTrailingWS, dropTrailingWS]
      simp [this]
    | cons b rest' =>
      have htail : dropTrailingWS (b :: rest') = b :: rest' :=
        ih (fun c hc => h c (by rw [List.getLast?_cons_cons]; exact hc))
      rw [dropTrailingWS, htail]
      simp

theorem stripWS_fixpoint {l : List Char}
    (hhead : ∀ c t, l = c :: t → pyIsSpace c = false)
    (hlast : ∀ c, l.getLast? = some c → pyIsSpace c = false) :
    stripWS l = l := by
  rw [stripWS, dropWhile_fixpoint hhead, dropTrailingWS_fixpoint hlast]

theorem head_stripWS_false : ∀ {l : List Char} {c : Char} {t : List Char},
    stripWS l = c :: t → pyIsSpace c = false := by
  intro l c t h
  rw [stripWS] at h
  cases hD : l.dropWhile pyIsSpace with
  | nil => rw [hD] at h; simp [dropTrailingWS] at h
  | cons a r =>
    rw [hD] at h
    rcases dropTrailingWS_cons a r with h1 | h1
    · rw [h1] at h; exact absurd h.symm (List.cons_ne_nil _ _)
    · rw [h1] at h
      have hac : a = c := (List.cons.injEq _ _ _ _ ▸ h).1
      exact hac ▸ head_dropWhile_false hD

theorem sanitize_text_idem (s : String) :
    sanitize_text (sanitize_text s) = sanitize_text s := by
  rw [sanitize_text]
  have hdata : (sanitize_text s).data = stripWS (subWS s.data) := rfl
  rw [hdata]
  have hs1 : spacesSingle (stripWS (subWS s.data)) :=
    spacesSingle_stripWS (spacesSingle_subWS s.data)
  have hn1 : noTwoSpaces (stripWS (subWS s.data)) :=
    noTwoSpaces_stripWS (noTwoSpaces_subWS s.data)
  rw [subWS_fixpoint hs1 hn1]
  rw [stripWS_fixpoint (fun c t h => head_stripWS_false h)
    (fun c h => getLast?_dropTrailingWS h)]
  rfl

theorem sanitize_text_all_space {s : String}
    (h : ∀ c ∈ s.data, pyIsSpace c = true) : sanitize_text s = "" := by
  rw [sanitize_text]
  have hsub : ∀ c ∈ subWS s.data, pyIsSpace c = true := by
    intro c hc
    rcases mem_subWS hc with h1 | ⟨h2, h3⟩
    · rw [h1]; rfl
    · exact absurd (h c h2) (by simp [h3])
  have hdrop : (subWS s.data).dropWhile pyIsSpace = [] := by
    rw [List.dropWhile_eq_nil_iff]
    intro a ha
    exact hsub a ha
  rw [stripWS, hdrop]
  rfl

/-- C9: `sanitize_text` is a deterministic total function (a Lean `def`),
idempotent on every string; it collapses whitespace runs, NBSP included, as on
the example "a&nbsp;&nbsp; b" → "a b"; and every string made of whitespace
only (the empty string included) maps to the empty string. -/
theorem c9_sanitize_idempotent_collapse_empty :
    (∀ s : String, sanitize_text (sanitize_text s) = sanitize_text s) ∧
    sanitize_text "a\u00A0\u00A0 b" = "a b" ∧
    (∀ s : String, (∀ c ∈ s.data, pyIsSpace c = true) → sanitize_text s = "") :=
  ⟨sanitize_text_idem, rfl, fun _ h => sanitize_text_all_space h⟩

/-- C9 witness: the whitespace-only clause applied to a concrete mixed
whitespace string. -/
theorem c9_witness_blank_input : sanitize_text " \u00A0\t " = "" :=
  c9_sanitize_idempotent_collapse_empty.2.2 " \u00A0\t " (by decide)

/-- C2: with the default thresholds significant = 0.2 and similar = 0.1,
`get_performance_status` classifies every difference into exactly the band
named by the spec's top-to-bottom table, and a difference exactly equal to a
threshold boundary falls in the less extreme band: 0.2 ↦ "above",
0.1 ↦ "similar", -0.1 ↦ "similar", -0.2 ↦ "below". -/
theorem c2_status_bands_and_boundaries :
    (∀ d : ℚ, get_performance_status d (2/10) (1/10) = spec_status (2/10) (1/10) d) ∧
    get_performance_status (2/10) (2/10) (1/10) = "above" ∧
    get_performance_status (1/10) (2/10) (1/10) = "similar" ∧
    get_performance_status (-(1/10)) (2/10) (1/10) = "similar" ∧
    get_performance_status (-(2/10)) (2/10) (1/10) = "below" := by
  refine ⟨fun d => ?_, by norm_num [get_performance_status],
    by norm_num [get_performance_status, abs_le],
    by norm_num [get_performance_status, abs_le],
    by norm_num [get_performance_status, abs_le]⟩
  unfold get_performance_status spec_status
  rcases lt_or_le (2/10 : ℚ) d with hA | hA
  · rw [if_pos hA, if_pos hA]
  · rw [if_neg (not_lt.2 hA), if_neg (not_lt.2 hA)]
    rcases lt_or_le (1/10 : ℚ) d with hB | hB
    · rw [if_pos hB, if_pos ⟨hB, hA⟩]
    · rw [if_neg (not_lt.2 hB),
          if_neg (fun h : (1/10 : ℚ) < d ∧ d ≤ 2/10 => absurd h.1 (not_lt.2 hB))]
      rcases le_or_lt (-(1/10) : ℚ) d with hC | hC
      · rw [if_pos (abs_le.2 ⟨hC, hB⟩), if_pos ⟨hC, hB⟩]
      · rw [if_neg (fun h : |d| ≤ (1/10 : ℚ) => absurd (abs_le.1 h).1 (not_le.2 hC)),
            if_neg (fun h : -(1/10 : ℚ) ≤ d ∧ d ≤ 1/10 => absurd h.1 (not_le.2 hC))]
        rcases lt_or_le d (-(2/10)) with hD | hD
        · rw [if_pos hD,
              if_neg (fun h : -(2/10 : ℚ) ≤ d ∧ d < -(1/10) => absurd h.1 (not_le.2 hD))]
        · rw [if_neg (not_lt.2 hD), if_pos ⟨hD, hC⟩]

/-- C7: whenever the metadata of the statistics bundle reports zero filtered
responses, `get_recommendations` returns exactly the single no-data message,
whatever the comparisons, selectors or category schema hold. -/
theorem c7_no_data_single_recommendation (stats : Stats)
    (categories : List (String × List String))
    (h : stats.metadata.filtered_responses = 0) :
    get_recommendations stats categories =
      ["No data available for this combination - unable to provide recommendations."] := by
  rw [get_recommendations, if_pos h]

/-- C7 witness: a bundle with zero filtered responses but non-trivial
comparisons and selectors still yields only the no-data message. -/
theorem c7_witness_zero_rows :
    get_recommendations
      ⟨⟨"A", "X", 0, 5⟩, [("C", ⟨-1, 0, -1, "significantly_below"⟩)]⟩
      [("C", ["Q"])] =
      ["No data available for this combination - unable to provide recommendations."] :=
  c7_no_data_single_recommendation _ _ rfl

/-- C3 (code bug evidence): the comparison stage classifies with the constants
0.2/0.1 even when the configuration supplies other thresholds.  With
configured thresholds significant = 0.5 and similar = 0.3 (duly surfaced by
`get_analysis_settings`, whose result the program never passes on), a
difference of 0.25 is labelled "significantly_above" by the pipeline, while
classification against the configured thresholds — as the claim requires —
gives "similar". -/
theorem c3_configured_thresholds_unused :
    get_analysis_settings ⟨some (5/10), some (3/10), none⟩ =
      ⟨5/10, 3/10, 10⟩ ∧
    (compare_with_overall ⟨1, [("Q", [some (1/4)])]⟩
        ⟨2, [("Q", [some (1/4), some (-(1/4))])]⟩ [("C", ["Q"])]).lookup "C" =
      some ⟨1/4, 0, 1/4, "significantly_above"⟩ ∧
    get_performance_status (1/4) (5/10) (3/10) = "similar" ∧
    spec_status (5/10) (3/10) (1/4) = "similar" := by
  refine ⟨rfl, ?_, ?_, ?_⟩
  · simp [compare_with_overall, questionAverages, colMean, listMean,
      get_performance_status, List.lookup, List.filterMap]
    norm_num
  · norm_num [get_performance_status, abs_le]
  · norm_num [spec_status]

/-- C6: `filter_data` returns exactly the rows passing the spec's combined
predicate — (team = "all" or the team cell equals the selector) and
(location = "all" or the location cell equals the selector) — as an in-order
subsequence of the input (so a no-match selector yields the empty list rather
than an error), and the ("all", "all") selector returns the rows unchanged. -/
theorem c6_filter_subsequence_wildcard :
    ∀ (rows : List Row) (tc lc st sl : String),
    filter_data rows tc lc st sl = rows.filter (fun r =>
      (st == "all" || rowGet r tc == some (CellV.str st)) &&
      (sl == "all" || rowGet r lc == some (CellV.str sl))) ∧
    (filter_data rows tc lc st sl).Sublist rows ∧
    filter_data rows tc lc "all" "all" = rows := by
  intro rows tc lc st sl
  have hfilter : filter_data rows tc lc st sl = rows.filter (fun r =>
      (st == "all" || rowGet r tc == some (CellV.str st)) &&
      (sl == "all" || rowGet r lc == some (CellV.str sl))) := by
    rcases eq_or_ne st "all" with hst | hst <;> rcases eq_or_ne sl "all" with hsl | hsl
    · simp [filter_data, hst, hsl]
    · have h2 : (sl == "all") = false := beq_eq_false_iff_ne.2 hsl
      simp [filter_data, hst, hsl, h2]
    · have h1 : (st == "all") = false := beq_eq_false_iff_ne.2 hst
      simp [filter_data, hst, hsl, h1]
    · have h1 : (st == "all") = false := beq_eq_false_iff_ne.2 hst
      have h2 : (sl == "all") = false := beq_eq_false_iff_ne.2 hsl
      simp [filter_data, hst, hsl, h1, h2, List.filter_filter, Bool.and_comm]
  exact ⟨hfilter, hfilter ▸ List.filter_sublist rows, by simp [filter_data]⟩

theorem ite_isEmpty_ne_nil (l d : List String) (hd : d ≠ []) :
    (if l.isEmpty then d else l) ≠ [] := by
  split
  · exact hd
  · rename_i h; simpa [List.isEmpty_iff] using h

/-- C10: `get_recommendations` never returns an empty list: with zero filtered
responses it is exactly the single no-data message, and with data present but
neither the worst-category condition nor the combination-impact condition
firing it is the generic no-issues message. -/
theorem c10_recommendations_never_empty :
    ∀ (stats : Stats) (cats : List (String × List String)),
    get_recommendations stats cats ≠ [] ∧
    (stats.metadata.filtered_responses = 0 →
      get_recommendations stats cats =
        ["No data available for this combination - unable to provide recommendations."]) ∧
    (stats.metadata.filtered_responses ≠ 0 →
      (¬ ∃ wc, argminScore stats.comparisons = some wc ∧
          (wc.2.status = "significantly_below" ∨ wc.2.status = "below")) →
      (¬ (stats.metadata.selected_team ≠ "all" ∧
          stats.metadata.selected_location ≠ "all" ∧
          ∃ cc ∈ stats.comparisons,
            (cc.2.status = "significantly_below" ∨ cc.2.status = "below"))) →
      get_recommendations stats cats =
        ["No specific issues identified - performance appears satisfactory for this combination."]) := by
  intro stats cats
  refine ⟨?_, ?_, ?_⟩
  · rw [get_recommendations]
    by_cases h0 : stats.metadata.filtered_responses = 0
    · rw [if_pos h0]; simp
    · rw [if_neg h0]
      exact ite_isEmpty_ne_nil _ _ (by simp)
  · intro h0
    rw [get_recommendations, if_pos h0]
  · intro h0 hc1 hc2
    have hrecs1 : (match argminScore stats.comparisons with
        | none => ([] : List String)
        | some wc =>
          if wc.2.status = "significantly_below" ∨ wc.2.status = "below" then
            [categoryFocusMsg wc.1 wc.2.filtered_score wc.2.status]
          else []) = [] := by
      cases h : argminScore stats.comparisons with
      | none => rfl
      | some wc => exact if_neg (fun hbad => hc1 ⟨wc, h, hbad⟩)
    simp only [get_recommendations, h0, if_false]
    rw [hrecs1, List.nil_append]
    by_cases hsel : stats.metadata.selected_team ≠ "all" ∧
        stats.metadata.selected_location ≠ "all"
    · rw [if_pos hsel]
      have hfe : stats.comparisons.filter (fun cc =>
          cc.2.status == "significantly_below" || cc.2.status == "below") = [] := by
        rw [List.filter_eq_nil_iff]
        intro cc hcc hp
        apply hc2
        refine ⟨hsel.1, hsel.2, cc, hcc, ?_⟩
        rcases Bool.or_eq_true _ _ ▸ hp with hx | hx
        · left; exact beq_iff_eq.1 hx
        · right; exact beq_iff_eq.1 hx
      simp [hfe]
    · rw [if_neg hsel]
      simp

/-- C10 witness: with one filtered response and no comparison entries neither
condition fires, and the generic message is returned. -/
theorem c10_witness_generic_message :
    get_recommendations ⟨⟨"all", "all", 1, 1⟩, []⟩ [] =
      ["No specific issues identified - performance appears satisfactory for this combination."] :=
  (c10_recommendations_never_empty ⟨⟨"all", "all", 1, 1⟩, []⟩ []).2.2
    (by decide) (by simp [argminScore]) (by simp)

/-! Lemmas relating the analyzer score computation to the spec wording. -/

theorem lookup_eq_none_of_not_mem_keys {β : Type} (l : List (String × β)) (k : String)
    (h : k ∉ l.map Prod.fst) : l.lookup k = none := by
  induction l with
  | nil => rfl
  | cons x xs ih =>
    simp only [List.map_cons, List.mem_cons] at h
    push_neg at h
    cases x with
    | mk a b =>
      have hb : (k == a) = false := beq_eq_false_iff_ne.2 h.1
      rw [List.lookup_cons]
      simp only [hb]
      exact ih h.2

theorem mem_of_lookup_eq_some {β : Type} {l : List (String × β)} {k : String} {v : β}
    (h : l.lookup k = some v) : (k, v) ∈ l := by
  induction l with
  | nil => simp [List.lookup] at h
  | cons x xs ih =>
    cases x with
    | mk a b =>
      rw [List.lookup_cons] at h
      cases hk : (k == a) with
      | true =>
        simp only [hk] at h
        have hka : k = a := beq_iff_eq.1 hk
        have hbv : b = v := Option.some.injEq _ _ ▸ h
        rw [hka, hbv]
        exact List.mem_cons_self _ _
      | false =>
        simp only [hk] at h
        exact List.mem_cons_of_mem _ (ih h)

theorem bind_colMean_eq_spec (df : NumDF) (q : String) :
    (df.cols.lookup q).bind colMean =
      (if (definedVals df q).isEmpty then none else some (listMean (definedVals df q))) := by
  cases h : df.cols.lookup q with
  | none => simp [definedVals, h, List.reduceOption]
  | some cells => simp [definedVals, h, colMean]

theorem questionAverages_eq_spec (df : NumDF) (Q : List String) :
    questionAverages df Q = Q.filterMap (fun q =>
      let vs := definedVals df q
      if vs.isEmpty then none else some (listMean vs)) := by
  unfold questionAverages
  exact List.filterMap_congr (fun q _ => bind_colMean_eq_spec df q)

theorem definedVals_nil_of_nRows_zero {df : NumDF} (hwf : df.WF)
    (h0 : df.nRows = 0) (q : String) : definedVals df q = [] := by
  unfold definedVals
  cases h : df.cols.lookup q with
  | none => rfl
  | some cells =>
    have hmem : (q, cells) ∈ df.cols := mem_of_lookup_eq_some h
    have : cells.length = 0 := h0 ▸ hwf _ hmem
    rw [List.length_eq_zero.1 this]
    rfl

theorem calc_keys_subset (df : NumDF) (cats : List (String × List String)) :
    ∀ p ∈ calculate_category_scores df cats, p.1 ∈ cats.map Prod.fst := by
  intro p hp
  rcases List.mem_filterMap.1 hp with ⟨a, ha, hfa⟩
  dsimp only at hfa
  by_cases h1 : a.2 ≠ [] ∧ 0 < df.nRows
  · rw [if_pos h1] at hfa
    by_cases h2 : questionAverages df a.2 ≠ []
    · rw [if_pos h2] at hfa
      have hp1 : p.1 = a.1 := by
        have := (Option.some.injEq _ _ ▸ hfa : (a.1, listMean (questionAverages df a.2)) = p)
        rw [← this]
      rw [hp1]
      exact List.mem_map_of_mem _ ha
    · rw [if_neg h2] at hfa; simp at hfa
  · rw [if_neg h1] at hfa; simp at hfa

theorem specCategoryScore_eq_none_of_no_avgs {df : NumDF} {Q : List String}
    (h : questionAverages df Q = []) : specCategoryScore df Q = none := by
  rw [specCategoryScore]
  rw [← questionAverages_eq_spec, h]
  rfl

theorem calc_lookup_eq_spec : ∀ (df : NumDF) (cats : List (String × List String))
    (c : String) (Q : List String), df.WF → (cats.map Prod.fst).Nodup →
    (c, Q) ∈ cats →
    (calculate_category_scores df cats).lookup c = specCategoryScore df Q := by
  intro df cats
  induction cats with
  | nil => intro c Q _ _ hmem; simp at hmem
  | cons cq cats' ih =>
    intro c Q hwf hnd hmem
    have hnd' : (cats'.map Prod.fst).Nodup := (List.nodup_cons.1 (by simpa using hnd)).2
    have hkey : cq.1 ∉ cats'.map Prod.fst := (List.nodup_cons.1 (by simpa using hnd)).1
    by_cases h1 : cq.2 ≠ [] ∧ 0 < df.nRows
    · by_cases h2 : questionAverages df cq.2 ≠ []
      · have hcalc : calculate_category_scores df (cq :: cats') =
            (cq.1, listMean (questionAverages df cq.2)) ::
              calculate_category_scores df cats' := by
          rw [calculate_category_scores, List.filterMap_cons]
          dsimp only
          rw [if_pos h1, if_pos h2]
          rfl
        rcases List.mem_cons.1 hmem with heq | htail
        · have hc : c = cq.1 := congrArg Prod.fst heq
          have hQ : Q = cq.2 := congrArg Prod.snd heq
          rw [hcalc, hc, List.lookup_cons]
          simp only [beq_self_eq_true]
          rw [hQ, specCategoryScore, ← questionAverages_eq_spec]
          rw [if_neg (fun hx => h2 (List.isEmpty_iff.1 hx))]
        · have hcne : c ≠ cq.1 := by
            intro he
            exact hkey (he ▸ List.mem_map_of_mem Prod.fst htail)
          rw [hcalc, List.lookup_cons]
          simp only [beq_eq_false_iff_ne.2 hcne]
          exact ih c Q hwf hnd' htail
      · have hcalc : calculate_category_scores df (cq :: cats') =
            calculate_category_scores df cats' := by
          rw [calculate_category_scores, List.filterMap_cons]
          dsimp only
          rw [if_pos h1, if_neg h2]
          rfl
        rcases List.mem_cons.1 hmem with heq | htail
        · have hc : c = cq.1 := congrArg Prod.fst heq
          have hQ : Q = cq.2 := congrArg Prod.snd heq
          rw [hcalc]
          have hnotin : c ∉ (calculate_category_scores df cats').map Prod.fst := by
            intro hin
            rcases List.mem_map.1 hin with ⟨p, hp, hpc⟩
            exact hkey (hc ▸ (hpc ▸ calc_keys_subset df cats' p hp))
          rw [lookup_eq_none_of_not_mem_keys _ _ hnotin]
          rw [hQ]
          exact (specCategoryScore_eq_none_of_no_avgs (not_not.1 h2)).symm
        · exact hcalc ▸ ih c Q hwf hnd' htail
    · have hcalc : calculate_category_scores df (cq :: cats') =
          calculate_category_scores df cats' := by
        rw [calculate_category_scores, List.filterMap_cons]
        dsimp only
        rw [if_neg h1]
        rfl
      rcases List.mem_cons.1 hmem with heq | htail
      · have hc : c = cq.1 := congrArg Prod.fst heq
        have hQ : Q = cq.2 := congrArg Prod.snd heq
        rw [hcalc]
        have hnotin : c ∉ (calculate_category_scores df cats').map Prod.fst := by
          intro hin
          rcases List.mem_map.1 hin with ⟨p, hp, hpc⟩
          exact hkey (hc ▸ (hpc ▸ calc_keys_subset df cats' p hp))
        rw [lookup_eq_none_of_not_mem_keys _ _ hnotin]
        push_neg at h1
        rcases eq_or_ne cq.2 [] with hQnil | hQne
        · rw [hQ, specCategoryScore, hQnil]
          rfl
        · have hrows : df.nRows = 0 := Nat.eq_zero_of_not_pos (by
            intro hpos
            exact absurd hpos (by simpa using h1 hQne))
          symm
          rw [hQ, specCategoryScore]
          have hms : cq.2.filterMap (fun q =>
              let vs := definedVals df q
              if vs.isEmpty then none else some (listMean vs)) = [] := by
            rw [List.filterMap_eq_nil_iff]
            intro q hq
            rw [definedVals_nil_of_nRows_zero hwf hrows q]
            rfl
          rw [hms]
          rfl
      · exact hcalc ▸ ih c Q hwf hnd' htail

/-- C1: for every well-formed numeric row set and category list with distinct
category names, each category's entry in `calculate_category_scores` equals
the spec-side score — the unweighted mean of the per-question means over
defined values, questions with zero defined values discarded, the category
absent (`none`) when the question list is empty or nothing has defined
values; and on the concrete example Q1 = [1, 1, NaN], Q2 = [NaN, NaN, NaN]
over 3 rows the category scores to exactly 1. -/
theorem c1_category_score_spec :
    (∀ (df : NumDF) (cats : List (String × List String)) (c : String) (Q : List String),
      df.WF → (cats.map Prod.fst).Nodup → (c, Q) ∈ cats →
      (calculate_category_scores df cats).lookup c = specCategoryScore df Q) ∧
    calculate_category_scores
      ⟨3, [("Q1", [some 1, some 1, none]), ("Q2", [none, none, none])]⟩
      [("C", ["Q1", "Q2"])] = [("C", 1)] := by
  constructor
  · exact calc_lookup_eq_spec
  · simp [calculate_category_scores, questionAverages, colMean, listMean,
      List.lookup, List.filterMap]

/-- C1 witness: the general clause applied to the example DataFrame. -/
theorem c1_witness_example :
    (calculate_category_scores
      ⟨3, [("Q1", [some 1, some 1, none]), ("Q2", [none, none, none])]⟩
      [("C", ["Q1", "Q2"])]).lookup "C" =
    specCategoryScore ⟨3, [("Q1", [some 1, some 1, none]), ("Q2", [none, none, none])]⟩
      ["Q1", "Q2"] :=
  c1_category_score_spec.1 _ _ "C" ["Q1", "Q2"]
    (by unfold NumDF.WF; decide) (by decide) (by decide)

/-! Commutation lemmas showing the redundant `str.strip` before `sanitize_text` in the Likert converter changes nothing. -/

theorem subWS_dropWhile_comm : ∀ l : List Char,
    subWS (l.dropWhile pyIsSpace) = (subWS l).dropWhile pyIsSpace := by
  intro l
  induction l with
  | nil => rfl
  | cons a rest ih =>
    match rest with
    | [] => cases ha : pyIsSpace a <;> simp [subWS, List.dropWhile, ha] <;> rfl
    | b :: rest' =>
      cases ha : pyIsSpace a with
      | false =>
        have hab : (pyIsSpace a && pyIsSpace b) = false := by simp [ha]
        rw [List.dropWhile_cons, ha]
        simp only [Bool.false_eq_true, if_false]
        rw [subWS, hab]
        simp only [Bool.false_eq_true, if_false, ha]
        rw [List.dropWhile_cons, ha]
        simp
      | true =>
        cases hb : pyIsSpace b with
        | true =>
          have hab : (pyIsSpace a && pyIsSpace b) = true := by simp [ha, hb]
          rw [List.dropWhile_cons, ha]
          simp only [if_true]
          rw [subWS, hab]
          simp only [if_true]
          rw [List.dropWhile_cons, hb] at ih ⊢
          simp only [if_true] at ih ⊢
          exact ih
        | false =>
          have hab : (pyIsSpace a && pyIsSpace b) = false := by simp [ha, hb]
          rw [List.dropWhile_cons, ha]
          simp only [if_true]
          rw [List.dropWhile_cons, hb]
          simp only [Bool.false_eq_true, if_false]
          rw [subWS, hab]
          simp only [Bool.false_eq_true, if_false, ha, if_true]
          rw [List.dropWhile_cons]
          have hsp : pyIsSpace ' ' = true := rfl
          rw [hsp]
          simp only [if_true]
          obtain ⟨t, ht⟩ := head_subWS b rest'
          rw [ht, hb] at ih ⊢
          simp only [Bool.false_eq_true, if_false] at ih ⊢
          rw [List.dropWhile_cons, hb]
          simp

theorem subWS_dropTrailing_comm : ∀ l : List Char,
    subWS (dropTrailingWS l) = dropTrailingWS (subWS l) := by
  intro l
  induction l with
  | nil => rfl
  | cons a rest ih =>
    match rest with
    | [] => cases ha : pyIsSpace a <;> simp [subWS, dropTrailingWS, ha] <;> rfl
    | b :: rest' =>
      by_cases hab : (pyIsSpace a && pyIsSpace b) = true
      · have ha : pyIsSpace a = true := (Bool.and_eq_true _ _ ▸ hab).1
        have hb : pyIsSpace b = true := (Bool.and_eq_true _ _ ▸ hab).2
        rw [subWS, hab]
        simp only [if_true]
        cases hdt : dropTrailingWS (b :: rest') with
        | nil =>
          rw [dropTrailingWS, hdt]
          simp only [List.isEmpty_nil, ha, Bool.and_self, if_true]
          rw [← ih, hdt]
        | cons x t =>
          rcases dropTrailingWS_cons b rest' with h2 | h2
          · rw [h2] at hdt; exact absurd hdt.symm (List.cons_ne_nil _ _)
          · rw [dropTrailingWS, hdt]
            simp only [List.isEmpty_cons, Bool.false_and, Bool.false_eq_true, if_false]
            rw [h2] at hdt
            have hxb : x = b := (List.cons.injEq _ _ _ _ ▸ hdt).1.symm
            have ht : t = dropTrailingWS rest' := (List.cons.injEq _ _ _ _ ▸ hdt).2.symm
            subst hxb
            subst ht
            rw [subWS, hab]
            simp only [if_true]
            rw [← ih, h2]
      · rw [subWS, if_neg hab]
        rw [dropTrailingWS]
        conv_rhs => rw [dropTrailingWS]
        rw [← ih]
        cases hdt : dropTrailingWS (b :: rest') with
        | nil =>
          cases ha : pyIsSpace a with
          | true =>
            have hsp : pyIsSpace ' ' = true := rfl
            simp only [List.isEmpty_nil, ha, Bool.and_self, if_true, subWS, hsp]
          | false =>
            simp only [List.isEmpty_nil, ha, Bool.and_false, Bool.false_eq_true, if_false,
              subWS, Bool.true_and]
        | cons x t =>
          rcases dropTrailingWS_cons b rest' with h2 | h2
          · rw [h2] at hdt; exact absurd hdt.symm (List.cons_ne_nil _ _)
          · rw [h2] at hdt
            have hxb : x = b := (List.cons.injEq _ _ _ _ ▸ hdt).1.symm
            have ht : t = dropTrailingWS rest' := (List.cons.injEq _ _ _ _ ▸ hdt).2.symm
            subst hxb
            subst ht
            simp only [List.isEmpty_cons, Bool.false_and, Bool.false_eq_true, if_false]
            rw [subWS, if_neg hab]
            obtain ⟨t2, ht2⟩ := head_subWS x (dropTrailingWS rest')
            rw [ht2]
            simp only [List.isEmpty_cons, Bool.false_and, Bool.false_eq_true, if_false]

theorem subWS_stripWS_comm (l : List Char) :
    subWS (stripWS l) = stripWS (subWS l) := by
  rw [stripWS, subWS_dropTrailing_comm, subWS_dropWhile_comm]
  rfl

theorem sanitize_text_strip (s : String) :
    sanitize_text (String.mk (stripWS s.data)) = sanitize_text s := by
  show String.mk (stripWS (subWS (stripWS s.data))) = String.mk (stripWS (subWS s.data))
  rw [subWS_stripWS_comm]
  congr 1
  exact stripWS_fixpoint (fun c t h => head_stripWS_false h)
    (fun c h => getLast?_dropTrailingWS h)

theorem str_beq_comm (x y : String) : (x == y) = (y == x) := by
  by_cases h : x = y
  · rw [h]
  · rw [beq_eq_false_iff_ne.2 h, beq_eq_false_iff_ne.2 (Ne.symm h)]

theorem find?_congr_pred {α : Type} {p q : α → Bool} (h : ∀ a, p a = q a) :
    ∀ l : List α, l.find? p = l.find? q := by
  intro l
  induction l with
  | nil => rfl
  | cons a t ih => rw [List.find?_cons, List.find?_cons, h a, ih]

/-- C4: `normalize_likert_response` agrees with the spec's Likert Converter on
every cell and mapping — null is undefined, otherwise the normalized text is
looked up exactly, then case-insensitively against normalized keys taking the
first match, else undefined; and the mapping of the claim converts
" strongly agree " to 1. -/
theorem c4_likert_conversion_spec :
    (∀ (m : List (String × Option ℚ)) (cell : Cell),
      normalize_likert_response m cell = spec_likert m cell) ∧
    normalize_likert_response
      [("Strongly Agree", some 1), ("Strongly Disagree", some (-2))]
      (some (CellV.str " strongly agree ")) = some 1 ∧
    (∀ m : List (String × Option ℚ), normalize_likert_response m none = none) := by
  refine ⟨?_, rfl, fun m => rfl⟩
  intro m cell
  cases cell with
  | none => rfl
  | some v =>
    simp only [normalize_likert_response, spec_likert]
    rw [sanitize_text_strip (cellText v)]
    rw [find?_congr_pred
      (fun kv => str_beq_comm (strLower (sanitize_text (cellText v)))
        (strLower (sanitize_text kv.1))) m]

/-! Lemmas for the schema-matching partition invariant. -/

theorem filterMap_if_eq_map_filter {α β : Type} (p : α → Bool) (f : α → β) (l : List α) :
    l.filterMap (fun a => if p a then some (f a) else none) = (l.filter p).map f := by
  induction l with
  | nil => rfl
  | cons a t ih => by_cases h : p a <;> simp [List.filterMap_cons, List.filter_cons, h, ih]

theorem length_filter_add_length_not {α : Type} (p : α → Bool) (l : List α) :
    (l.filter p).length + (l.filter (fun a => !(p a))).length = l.length := by
  induction l with
  | nil => rfl
  | cons a t ih =>
    by_cases h : p a <;> simp [List.filter_cons, h, ← ih] <;> omega

theorem lookup_keyed_map {β : Type} (cats : List (String × List String))
    (f : String × List String → β) (hnd : (cats.map Prod.fst).Nodup) :
    ∀ cq ∈ cats, (cats.map (fun x => (x.1, f x))).lookup cq.1 = some (f cq) := by
  induction cats with
  | nil => intro cq h; simp at h
  | cons a t ih =>
    intro cq hmem
    have hnd' : (t.map Prod.fst).Nodup := (List.nodup_cons.1 (by simpa using hnd)).2
    have hkey : a.1 ∉ t.map Prod.fst := (List.nodup_cons.1 (by simpa using hnd)).1
    rcases List.mem_cons.1 hmem with heq | htail
    · subst heq
      simp [List.lookup_cons]
    · have hne : cq.1 ≠ a.1 := by
        intro he
        exact hkey (he ▸ List.mem_map_of_mem Prod.fst htail)
      rw [List.map_cons, List.lookup_cons]
      simp only [beq_eq_false_iff_ne.2 hne]
      exact ih hnd' cq htail

theorem filter_keyed_flatMap (cats : List (String × List String))
    (g : String × List String → List String)
    (hnd : (cats.map Prod.fst).Nodup) :
    ∀ cq ∈ cats,
      (cats.flatMap (fun x => (g x).map (fun q => (x.1, q)))).filter
          (fun pr => pr.1 == cq.1) =
        (g cq).map (fun q => (cq.1, q)) := by
  induction cats with
  | nil => intro cq h; simp at h
  | cons a t ih =>
    intro cq hmem
    have hnd' : (t.map Prod.fst).Nodup := (List.nodup_cons.1 (by simpa using hnd)).2
    have hkey : a.1 ∉ t.map Prod.fst := (List.nodup_cons.1 (by simpa using hnd)).1
    rw [List.flatMap_cons, List.filter_append]
    rcases List.mem_cons.1 hmem with heq | htail
    · subst heq
      have h1 : ((g cq).map (fun q => (cq.1, q))).filter (fun pr => pr.1 == cq.1) =
          (g cq).map (fun q => (cq.1, q)) := by
        rw [List.filter_eq_self]
        intro pr hpr
        rcases List.mem_map.1 hpr with ⟨q, _, hq⟩
        rw [← hq]
        exact beq_self_eq_true _
      have h2 : (t.flatMap (fun x => (g x).map (fun q => (x.1, q)))).filter
          (fun pr => pr.1 == cq.1) = [] := by
        rw [List.filter_eq_nil_iff]
        intro pr hpr hbeq
        rcases List.mem_flatMap.1 hpr with ⟨x, hx, hprx⟩
        rcases List.mem_map.1 hprx with ⟨q, _, hq⟩
        have : pr.1 = x.1 := by rw [← hq]
        rw [this] at hbeq
        exact hkey (beq_iff_eq.1 hbeq ▸ List.mem_map_of_mem Prod.fst hx)
      rw [h1, h2, List.append_nil]
    · have hne : cq.1 ≠ a.1 := by
        intro he
        exact hkey (he ▸ List.mem_map_of_mem Prod.fst htail)
      have h1 : ((g a).map (fun q => (a.1, q))).filter (fun pr => pr.1 == cq.1) = [] := by
        rw [List.filter_eq_nil_iff]
        intro pr hpr hbeq
        rcases List.mem_map.1 hpr with ⟨q, _, hq⟩
        have : pr.1 = a.1 := by rw [← hq]
        rw [this] at hbeq
        exact hne (beq_iff_eq.1 hbeq).symm
      rw [h1, List.nil_append]
      exact ih hnd' cq htail

/-- C5: the schema matcher of `normalize_data` partitions the configured
questions: every category (with distinct category names) keys the matched
mapping — holding exactly the sanitized names of its questions found among
the sanitized columns, an empty list when none match — the missing list holds
exactly that category's unmatched questions with their original text, and the
two parts' lengths sum to the configured question count (one entry per
configured question, no duplicates). -/
theorem c5_schema_matching_partition :
    ∀ (df : List (String × List Cell)) (cats : List (String × List String))
    (lm : List (String × Option ℚ)), (cats.map Prod.fst).Nodup →
    ∀ cq ∈ cats,
    ((normalize_data df cats lm).2.1).lookup cq.1 =
      some ((cq.2.filter (fun q =>
        (df.map (fun cv => sanitize_text cv.1)).contains (sanitize_text q))).map
          (fun q => sanitize_text q)) ∧
    ((normalize_data df cats lm).2.2).filter (fun pr => pr.1 == cq.1) =
      (cq.2.filter (fun q =>
        !((df.map (fun cv => sanitize_text cv.1)).contains (sanitize_text q)))).map
          (fun q => (cq.1, q)) ∧
    (cq.2.filter (fun q =>
        (df.map (fun cv => sanitize_text cv.1)).contains (sanitize_text q))).length +
      (cq.2.filter (fun q =>
        !((df.map (fun cv => sanitize_text cv.1)).contains (sanitize_text q)))).length =
      cq.2.length := by
  intro df cats lm hnd cq hmem
  have hcols : (df.map (fun cv => (sanitize_text cv.1, cv.2))).map Prod.fst =
      df.map (fun cv => sanitize_text cv.1) := by
    simp [List.map_map]
  refine ⟨?_, ?_, length_filter_add_length_not _ _⟩
  · simp only [normalize_data]
    rw [hcols]
    rw [lookup_keyed_map cats
      (fun x => x.2.filterMap (fun q =>
        if (df.map (fun cv => sanitize_text cv.1)).contains (sanitize_text q) then
          some (sanitize_text q) else none)) hnd cq hmem]
    rw [filterMap_if_eq_map_filter]
  · simp only [normalize_data]
    rw [hcols]
    exact filter_keyed_flatMap cats
      (fun x => x.2.filter (fun q =>
        !((df.map (fun cv => sanitize_text cv.1)).contains (sanitize_text q))))
      hnd cq hmem

/-- C5 witness: a two-column table and a category with one matching and one
missing question. -/
theorem c5_witness_partition :
    ((normalize_data [("A  B", [none]), ("C", [none])]
        [("Cat", ["A B", "Missing Q"])] []).2.1).lookup "Cat" =
      some (((["A B", "Missing Q"] : List String).filter (fun q =>
        ([("A  B", [(none : Cell)]), ("C", [none])].map
          (fun cv => sanitize_text cv.1)).contains (sanitize_text q))).map
            (fun q => sanitize_text q)) ∧
    ((normalize_data [("A  B", [none]), ("C", [none])]
        [("Cat", ["A B", "Missing Q"])] []).2.2).filter (fun pr => pr.1 == "Cat") =
      ((["A B", "Missing Q"] : List String).filter (fun q =>
        !(([("A  B", [(none : Cell)]), ("C", [none])].map
          (fun cv => sanitize_text cv.1)).contains (sanitize_text q)))).map
            (fun q => ("Cat", q)) ∧
    ((["A B", "Missing Q"] : List String).filter (fun q =>
        ([("A  B", [(none : Cell)]), ("C", [none])].map
          (fun cv => sanitize_text cv.1)).contains (sanitize_text q))).length +
      ((["A B", "Missing Q"] : List String).filter (fun q =>
        !(([("A  B", [(none : Cell)]), ("C", [none])].map
          (fun cv => sanitize_text cv.1)).contains (sanitize_text q)))).length = 2 :=
  c5_schema_matching_partition [("A  B", [none]), ("C", [none])]
    [("Cat", ["A B", "Missing Q"])] [] (by decide)
    ("Cat", ["A B", "Missing Q"]) (by decide)

/-! Lemmas for the in-place Likert conversion of `normalize_data`. -/

theorem lookup_map_convert (m : List (String × Option ℚ)) (q n : String) :
    ∀ df : List (String × List Cell),
    (df.map (fun cv =>
      if cv.1 == q then (cv.1, cv.2.map (convertCell m)) else cv)).lookup n =
      if n = q then (df.lookup q).map (fun col => col.map (convertCell m))
      else df.lookup n := by
  intro df
  induction df with
  | nil => by_cases h : n = q <;> simp [List.lookup, h]
  | cons cv rest ih =>
    rw [List.map_cons]
    by_cases hn : n = cv.1
    · by_cases hq : cv.1 = q
      · have hcq : (cv.1 == q) = true := beq_iff_eq.2 hq
        rw [if_pos hcq]
        rw [List.lookup_cons, List.lookup_cons]
        have h1 : (n == cv.1) = true := beq_iff_eq.2 hn
        have h2 : (q == cv.1) = true := beq_iff_eq.2 hq.symm
        simp only [h1, h2]
        rw [if_pos (hn.trans hq)]
        rfl
      · have hcq : (cv.1 == q) = false := beq_eq_false_iff_ne.2 hq
        rw [if_neg (by simp [hcq])]
        rw [List.lookup_cons, List.lookup_cons]
        have h1 : (n == cv.1) = true := beq_iff_eq.2 hn
        simp only [h1]
        rw [if_neg (fun he => hq (hn.symm.trans he : cv.1 = q))]
        rw [List.lookup_cons]
        simp only [h1]
    · have h1 : (n == cv.1) = false := beq_eq_false_iff_ne.2 hn
      by_cases hq : cv.1 = q
      · have hcq : (cv.1 == q) = true := beq_iff_eq.2 hq
        rw [if_pos hcq]
        rw [List.lookup_cons]
        simp only [h1]
        rw [ih]
        by_cases hnq : n = q
        · rw [if_pos hnq, if_pos hnq]
          rw [List.lookup_cons]
          have : (q == cv.1) = false := beq_eq_false_iff_ne.2 (fun he => hn (hnq.trans he))
          simp only [this]
        · rw [if_neg hnq, if_neg hnq]
          rw [List.lookup_cons]
          simp only [h1]
      · have hcq : (cv.1 == q) = false := beq_eq_false_iff_ne.2 hq
        rw [if_neg (by simp [hcq])]
        rw [List.lookup_cons]
        simp only [h1]
        rw [ih]
        by_cases hnq : n = q
        · rw [if_pos hnq, if_pos hnq]
          rw [List.lookup_cons]
          have : (q == cv.1) = false := beq_eq_false_iff_ne.2 (Ne.symm hq)
          simp only [this]
        · rw [if_neg hnq, if_neg hnq]
          rw [List.lookup_cons]
          simp only [h1]

theorem contains_eq_false_not_mem {l : List String} {q : String}
    (h : l.contains q = false) : q ∉ l := by
  intro hmem
  have := List.elem_eq_true_of_mem hmem
  rw [List.contains] at h
  rw [this] at h
  exact Bool.true_eq_false ▸ h

theorem map_convert_names (m : List (String × Option ℚ)) (q : String) :
    ∀ df : List (String × List Cell),
    ((df.map (fun cv =>
      if cv.1 == q then (cv.1, cv.2.map (convertCell m)) else cv)).map Prod.fst) =
      df.map Prod.fst := by
  intro df
  induction df with
  | nil => rfl
  | cons cv rest ih =>
    rw [List.map_cons, List.map_cons, List.map_cons]
    congr 1
    split <;> rfl

theorem applyConvert_lookup (m : List (String × Option ℚ))
    (df : List (String × List Cell)) (q n : String) :
    (applyConvert m df q).lookup n =
      if n = q then (df.lookup q).map (fun col => col.map (convertCell m))
      else df.lookup n := by
  unfold applyConvert
  by_cases hc : (df.map Prod.fst).contains q = true
  · rw [if_pos hc, lookup_map_convert]
  · rw [if_neg hc]
    have hc' : (df.map Prod.fst).contains q = false := by simpa using hc
    by_cases hnq : n = q
    · rw [if_pos hnq, hnq]
      rw [lookup_eq_none_of_not_mem_keys _ _ (contains_eq_false_not_mem hc')]
      rfl
    · rw [if_neg hnq]

theorem applyConvert_names (m : List (String × Option ℚ))
    (df : List (String × List Cell)) (q : String) :
    (applyConvert m df q).map Prod.fst = df.map Prod.fst := by
  unfold applyConvert
  split
  · exact map_convert_names m q df
  · rfl

theorem foldl_applyConvert_names (m : List (String × Option ℚ)) :
    ∀ (qs : List String) (df : List (String × List Cell)),
    ((qs.foldl (applyConvert m) df).map Prod.fst) = df.map Prod.fst := by
  intro qs
  induction qs with
  | nil => intro df; rfl
  | cons q qs' ih =>
    intro df
    rw [List.foldl_cons, ih, applyConvert_names]

theorem foldl_applyConvert_lookup (m : List (String × Option ℚ)) :
    ∀ (qs : List String) (df : List (String × List Cell)) (n : String), qs.Nodup →
    (qs.foldl (applyConvert m) df).lookup n =
      if n ∈ qs then (df.lookup n).map (fun col => col.map (convertCell m))
      else df.lookup n := by
  intro qs
  induction qs with
  | nil => intro df n _; simp
  | cons q qs' ih =>
    intro df n hnd
    have hq : q ∉ qs' := (List.nodup_cons.1 hnd).1
    have hnd' : qs'.Nodup := (List.nodup_cons.1 hnd).2
    rw [List.foldl_cons, ih _ _ hnd']
    by_cases hin : n ∈ qs'
    · have hne : n ≠ q := fun he => hq (he ▸ hin)
      rw [if_pos hin, applyConvert_lookup, if_neg hne,
        if_pos (List.mem_cons_of_mem _ hin)]
    · rw [if_neg hin, applyConvert_lookup]
      by_cases hnq : n = q
      · rw [if_pos hnq, if_pos (by rw [hnq]; exact List.mem_cons_self _ _), hnq]
      · rw [if_neg hnq, if_neg (by simp [hnq, hin])]

/-- C8 counterexample: converting the single matched question column of a
one-column table replaces the textual responses with numeric scores; the
original text "Agree" is nowhere in the resulting table, refuting the claim
that original text columns are retained alongside parallel numeric columns. -/
theorem c8_counterexample_text_not_retained :
    (normalize_data [("Q", [some (CellV.str "Agree")])] [("C", ["Q"])]
      [("Agree", some 1)]).1 = [("Q", [some (CellV.num 1)])] ∧
    ∀ cv ∈ (normalize_data [("Q", [some (CellV.str "Agree")])] [("C", ["Q"])]
      [("Agree", some 1)]).1, some (CellV.str "Agree") ∉ cv.2 :=
  ⟨rfl, by decide⟩

/-- C8 (amended): Likert conversion is applied column-wise in place — when
the matched question names are distinct, the resulting table keeps exactly
the renamed column names (no parallel columns appear), each matched question
column equals the cell-wise conversion of its renamed original, and every
other column is unchanged. -/
theorem c8_amended_inplace_conversion :
    ∀ (df : List (String × List Cell)) (cats : List (String × List String))
    (m : List (String × Option ℚ)),
    (((normalize_data df cats m).2.1).flatMap Prod.snd).Nodup →
    ((normalize_data df cats m).1.map Prod.fst =
      (df.map (fun cv => (sanitize_text cv.1, cv.2))).map Prod.fst) ∧
    (∀ q ∈ ((normalize_data df cats m).2.1).flatMap Prod.snd,
      ((normalize_data df cats m).1).lookup q =
        ((df.map (fun cv => (sanitize_text cv.1, cv.2))).lookup q).map
          (fun col => col.map (convertCell m))) ∧
    (∀ n, n ∉ ((normalize_data df cats m).2.1).flatMap Prod.snd →
      ((normalize_data df cats m).1).lookup n =
        (df.map (fun cv => (sanitize_text cv.1, cv.2))).lookup n) := by
  intro df cats m hnd
  simp only [normalize_data] at hnd ⊢
  refine ⟨foldl_applyConvert_names m _ _, fun q hq => ?_, fun n hn => ?_⟩
  · rw [foldl_applyConvert_lookup m _ _ _ hnd, if_pos hq]
  · rw [foldl_applyConvert_lookup m _ _ _ hnd, if_neg hn]

/-- C8 witness: the amended in-place statement at the counterexample input. -/
theorem c8_witness_inplace :
    ((normalize_data [("Q", [some (CellV.str "Agree")])] [("C", ["Q"])]
        [("Agree", some 1)]).1.map Prod.fst =
      ([("Q", [some (CellV.str "Agree")])].map
        (fun cv => (sanitize_text cv.1, cv.2))).map Prod.fst) ∧
    (∀ q ∈ ((normalize_data [("Q", [some (CellV.str "Agree")])] [("C", ["Q"])]
        [("Agree", some 1)]).2.1).flatMap Prod.snd,
      ((normalize_data [("Q", [some (CellV.str "Agree")])] [("C", ["Q"])]
        [("Agree", some 1)]).1).lookup q =
        (([("Q", [some (CellV.str "Agree")])].map
          (fun cv => (sanitize_text cv.1, cv.2))).lookup q).map
            (fun col => col.map (convertCell [("Agree", some 1)]))) ∧
    (∀ n, n ∉ ((normalize_data [("Q", [some (CellV.str "Agree")])] [("C", ["Q"])]
        [("Agree", some 1)]).2.1).flatMap Prod.snd →
      ((normalize_data [("Q", [some (CellV.str "Agree")])] [("C", ["Q"])]
        [("Agree", some 1)]).1).lookup n =
        ([("Q", [some (CellV.str "Agree")])].map
          (fun cv => (sanitize_text cv.1, cv.2))).lookup n) :=
  c8_amended_inplace_conversion [("Q", [some (CellV.str "Agree")])]
    [("C", ["Q"])] [("Agree", some 1)] (by decide)

end QP
